import Mathlib

/-!
Verification of the PortHawk port-range grammar parser and configuration
assembler against their specification.

The Rust sources embedded here are src/args/parser.rs (the port-range
grammar parser) and src/input_parse.rs (the configuration assembler,
Args::new).  Strings are modelled as lists of characters; the Rust
standard-library routines the code relies on (char split, trim,
u16::from_str) are embedded as the functions splitOnChar, trimChars and
parseU16 below, each mirroring the documented Rust semantics.
-/

/-- A string, modelled as its list of characters. -/
abbrev Str := List Char

/-- Decidable equality for Except, needed to evaluate parser results on
concrete inputs. -/
instance {ε α : Type} [DecidableEq ε] [DecidableEq α] : DecidableEq (Except ε α) := fun a b =>
  match a, b with
  | Except.error e, Except.error f =>
    if h : e = f then Decidable.isTrue (by rw [h])
    else Decidable.isFalse (fun hh => h (Except.error.inj hh))
  | Except.ok x, Except.ok y =>
    if h : x = y then Decidable.isTrue (by rw [h])
    else Decidable.isFalse (fun hh => h (Except.ok.inj hh))
  | Except.error _, Except.ok _ => Decidable.isFalse (fun hh => Except.noConfusion hh)
  | Except.ok _, Except.error _ => Decidable.isFalse (fun hh => Except.noConfusion hh)

/-- Embeds Rust str::split(c) (splitting on a single character): splitting
the empty string yields one empty piece, and every separator occurrence
starts a new piece.  The result is always non-empty. -/
def splitOnChar (c : Char) : Str → List Str
  | [] => [[]]
  | x :: xs =>
    let r := splitOnChar c xs
    if x = c then [] :: r
    else
      match r with
      | h :: t => (x :: h) :: t
      | [] => [[x]]

/-- Embeds Rust str::contains(c) for a single character. -/
def containsChar (c : Char) (s : Str) : Bool := decide (c ∈ s)

/-- Embeds Rust str::trim.  Rust trims Unicode White_Space characters;
the inputs relevant here only ever carry ASCII whitespace, for which
Char.isWhitespace agrees with the Rust predicate. -/
def trimChars (s : Str) : Str :=
  ((s.dropWhile Char.isWhitespace).reverse.dropWhile Char.isWhitespace).reverse

/-- Embeds Rust str::parse::<u16> (u16::from_str): an optional leading
plus sign, then one or more ASCII digits, with the value required to fit
in 16 bits; anything else is a parse error (returned as none). -/
def parseU16 (s : Str) : Option Nat :=
  let t := if s.head? = some '+' then s.tail else s
  if t.isEmpty then none
  else if t.all Char.isDigit then
    let n := t.foldl (fun a c => a * 10 + (c.toNat - 48)) 0
    if n ≤ 65535 then some n else none
  else none

/-- The PortRange enum of src/args/parser.rs: either a list of
(start, end) port ranges or a single port.  Ports are u16 values,
modelled as natural numbers that the parser only ever produces below
2^16. -/
inductive PortRange : Type where
  | Range : List (Nat × Nat) → PortRange
  | Single : Nat → PortRange
  deriving DecidableEq, Repr

/-- The error message built by format!("Invalid port: \x7b\x7d", ...). -/
def msgInvalidPort (s : Str) : Str := ("Invalid port: ").data ++ s

/-- The error message built by format!("Invalid port range: \x7b\x7d", ...). -/
def msgInvalidRangeFormat (s : Str) : Str := ("Invalid port range: ").data ++ s

/-- The error message built by format!("Invalid start port: \x7b\x7d", ...). -/
def msgInvalidRangeStart (s : Str) : Str := ("Invalid start port: ").data ++ s

/-- The error message built by format!("Invalid end port: \x7b\x7d", ...). -/
def msgInvalidRangeEnd (s : Str) : Str := ("Invalid end port: ").data ++ s

/-- The error message built by
format!("Start port is greater than end port: \x7b\x7d", ...). -/
def msgInvalidRangeOrder (s : Str) : Str :=
  ("Start port is greater than end port: ").data ++ s

/-- One iteration of the loop in parse_port_range (src/args/parser.rs,
lines 31-51): split the comma-delimited segment on the dash, require
exactly two parts, trim and parse each part, and require start ≤ end.
The error messages cite exactly what the Rust format! calls cite: the
untrimmed parts, or the whole segment. -/
def parseSegment (seg : Str) : Except Str (Nat × Nat) :=
  match splitOnChar '-' seg with
  | [a, b] =>
    match parseU16 (trimChars a) with
    | none => Except.error (msgInvalidRangeStart a)
    | some s =>
      match parseU16 (trimChars b) with
      | none => Except.error (msgInvalidRangeEnd b)
      | some e =>
        if s > e then Except.error (msgInvalidRangeOrder seg)
        else Except.ok (s, e)
  | _ => Except.error (msgInvalidRangeFormat seg)

/-- The accumulation loop of parse_port_range: process the comma-split
segments in order, failing fast on the first bad segment and otherwise
collecting the (start, end) pairs in input order. -/
def parseSegments : List Str → Except Str (List (Nat × Nat))
  | [] => Except.ok []
  | seg :: rest =>
    match parseSegment seg with
    | Except.error e => Except.error e
    | Except.ok p =>
      match parseSegments rest with
      | Except.error e => Except.error e
      | Except.ok ps => Except.ok (p :: ps)

/-- Embeds pub fn parse_port_range (src/args/parser.rs).  A string with
neither a dash nor a comma is parsed as a single u16 port; otherwise the
string is split on commas and each segment parsed as a range.  The final
Rust match on port_ranges.len() returns Range(port_ranges) in every arm,
so the range branch always wraps the accumulated list in Range. -/
def parse_port_range (target_ports : Str) : Except Str PortRange :=
  if !(containsChar '-' target_ports) && !(containsChar ',' target_ports) then
    match parseU16 target_ports with
    | some p => Except.ok (PortRange.Single p)
    | none => Except.error (msgInvalidPort target_ports)
  else
    match parseSegments (splitOnChar ',' target_ports) with
    | Except.ok prs => Except.ok (PortRange.Range prs)
    | Except.error e => Except.error e

/-- Outcome of the port-selection part of Args::new
(src/input_parse.rs): either a parsed PortRange, or a process abort.
The panic constructor models Result::expect, whose panic payload is the
fixed expect message followed by the Debug rendering of the error. -/
inductive ArgsOutcome : Type where
  | ok : PortRange → ArgsOutcome
  | panic : Str → Str → ArgsOutcome
  deriving DecidableEq, Repr

/-- The precedence rule of Args::new (src/input_parse.rs, lines 58-62):
when the all_ports flag is set, the effective port string is the literal
"1-65535", discarding the supplied ports string. -/
def effectiveTargetPorts (all_ports : Bool) (ports : Str) : Str :=
  if all_ports then ("1-65535").data else ports

/-- Embeds the port-selection logic of Args::new (src/input_parse.rs,
lines 56-64): choose the effective port string, parse it, and on parse
failure abort the process via .expect("Failed to parse ports range.").
The other CliArgs fields are passed through untouched and play no part
in the claims, so they are not modelled. -/
def argsNewPorts (all_ports : Bool) (ports : Str) : ArgsOutcome :=
  match parse_port_range (effectiveTargetPorts all_ports ports) with
  | Except.ok pr => ArgsOutcome.ok pr
  | Except.error e => ArgsOutcome.panic ("Failed to parse ports range.").data e

/-- Joins pieces with a single-character separator; the inverse of
splitOnChar used to state claims about comma-separated inputs. -/
def joinSep (c : Char) : List Str → Str
  | [] => []
  | [x] => x
  | x :: y :: t => x ++ c :: joinSep c (y :: t)

/-- The decimal digit characters, for rendering port numbers. -/
def decDigit : Nat → Char
  | 0 => '0' | 1 => '1' | 2 => '2' | 3 => '3' | 4 => '4'
  | 5 => '5' | 6 => '6' | 7 => '7' | 8 => '8' | 9 => '9'
  | _ => 'X'

/-- Base-10 digits, least significant first, computed with explicit fuel
so that the kernel can evaluate it on concrete numbers.  Proved equal to
Mathlib's Nat.digits 10 below. -/
def decDigitsAux : Nat → Nat → List Nat
  | 0, _ => []
  | _ + 1, 0 => []
  | fuel + 1, n + 1 => (n + 1) % 10 :: decDigitsAux fuel ((n + 1) / 10)

/-- Base-10 digits of a natural number, least significant first. -/
def decDigits (n : Nat) : List Nat := decDigitsAux n n

/-- The decimal string of a natural number (most significant digit
first), matching Rust format!("\x7b\x7d", n) for unsigned integers. -/
def natToDecStr (n : Nat) : Str :=
  if n = 0 then ['0'] else ((decDigits n).map decDigit).reverse

/-- The canonical string representation of a PortRange: the decimal
digits of the port for Single, and the comma-joined start-end segments
for Range. -/
def canonicalStr : PortRange → Str
  | PortRange.Single p => natToDecStr p
  | PortRange.Range l =>
      joinSep ',' (l.map (fun pr => natToDecStr pr.1 ++ '-' :: natToDecStr pr.2))

/-- Validity of a PortRange value, as the specification states it: a
Single carries a port representable in 16 bits, and a Range is a
non-empty list of pairs with start ≤ end and both bounds in 0-65535. -/
def PortRange.Valid : PortRange → Prop
  | PortRange.Single p => p ≤ 65535
  | PortRange.Range l => l ≠ [] ∧ ∀ pr ∈ l, pr.1 ≤ pr.2 ∧ pr.1 ≤ 65535 ∧ pr.2 ≤ 65535

example : parse_port_range ("8080").data = Except.ok (PortRange.Single 8080) := by decide
example : parse_port_range ("8000-8080").data
    = Except.ok (PortRange.Range [(8000, 8080)]) := by decide
example : parse_port_range ("abc").data
    = Except.error (msgInvalidPort ("abc").data) := by decide
example : parse_port_range ("8000-9000-10000").data
    = Except.error (msgInvalidRangeFormat ("8000-9000-10000").data) := by decide
example : parse_port_range ("a-1000").data
    = Except.error (msgInvalidRangeStart ("a").data) := by decide
example : parse_port_range ("1000-b").data
    = Except.error (msgInvalidRangeEnd ("b").data) := by decide
example : parse_port_range ("8080-8000").data
    = Except.error (msgInvalidRangeOrder ("8080-8000").data) := by decide
example : parse_port_range ("8000-8080,9000-9090").data
    = Except.ok (PortRange.Range [(8000, 8080), (9000, 9090)]) := by decide
example : natToDecStr 8080 = ("8080").data := by decide
example : argsNewPorts true ("80").data
    = ArgsOutcome.ok (PortRange.Range [(1, 65535)]) := by decide

/-! ### Properties of the string helpers -/

lemma splitOnChar_ne_nil (c : Char) (s : Str) : splitOnChar c s ≠ [] := by
  cases s with
  | nil => simp [splitOnChar]
  | cons x xs =>
    simp only [splitOnChar]
    split
    · simp
    · split <;> simp

lemma splitOnChar_not_mem (c : Char) (s : Str) (h : c ∉ s) : splitOnChar c s = [s] := by
  induction s with
  | nil => rfl
  | cons x xs ih =>
    have h1 : ¬ x = c := fun hh => h (by simp [hh])
    have h2 : c ∉ xs := fun hh => h (List.mem_cons_of_mem _ hh)
    simp only [splitOnChar, if_neg h1, ih h2]

lemma splitOnChar_sep (c : Char) (x y : Str) (h : c ∉ x) :
    splitOnChar c (x ++ c :: y) = x :: splitOnChar c y := by
  induction x with
  | nil => simp [splitOnChar]
  | cons a t ih =>
    have h1 : ¬ a = c := fun hh => h (by simp [hh])
    have h2 : c ∉ t := fun hh => h (List.mem_cons_of_mem _ hh)
    simp only [List.cons_append, splitOnChar, if_neg h1, List.append_eq, ih h2]

lemma splitOnChar_joinSep (c : Char) (xs : List Str) (hne : xs ≠ [])
    (h : ∀ x ∈ xs, c ∉ x) : splitOnChar c (joinSep c xs) = xs := by
  induction xs with
  | nil => exact absurd rfl hne
  | cons a t ih =>
    cases t with
    | nil => exact splitOnChar_not_mem c a (h a (by simp))
    | cons b u =>
      rw [joinSep, splitOnChar_sep c a _ (h a (by simp)),
        ih (by simp) (fun x hx => h x (List.mem_cons_of_mem _ hx))]

lemma mem_joinSep_left (c : Char) (a b : Str) (t : List Str) :
    c ∈ joinSep c (a :: b :: t) := by
  simp [joinSep]

lemma mem_of_splitOnChar_length (c : Char) (s : Str)
    (h : (splitOnChar c s).length ≠ 1) : c ∈ s := by
  by_contra hmem
  rw [splitOnChar_not_mem c s hmem] at h
  simp at h

/-! ### Properties of parseU16 and decimal rendering -/

lemma parseU16_le (s : Str) (n : Nat) (h : parseU16 s = some n) : n ≤ 65535 := by
  unfold parseU16 at h
  split_ifs at h <;> simp_all <;> omega

lemma decDigitsAux_eq (fuel n : Nat) (h : n ≤ fuel) :
    decDigitsAux fuel n = Nat.digits 10 n := by
  induction fuel generalizing n with
  | zero =>
    interval_cases n
    simp [decDigitsAux]
  | succ f ih =>
    cases n with
    | zero => simp [decDigitsAux]
    | succ m =>
      have hd : (m + 1) / 10 ≤ f := by
        have := Nat.div_lt_self (Nat.succ_pos m) (by norm_num : 1 < 10)
        omega
      rw [decDigitsAux, ih _ hd,
        ← Nat.digits_def' (b := 10) (by norm_num) (Nat.succ_pos m)]

lemma decDigits_eq (n : Nat) : decDigits n = Nat.digits 10 n :=
  decDigitsAux_eq n n le_rfl

lemma decDigit_isDigit (d : Nat) (h : d < 10) : (decDigit d).isDigit = true := by
  interval_cases d <;> decide

lemma decDigit_toNat (d : Nat) (h : d < 10) : (decDigit d).toNat - 48 = d := by
  interval_cases d <;> decide

lemma natToDecStr_all_digits (n : Nat) : ∀ c ∈ natToDecStr n, c.isDigit = true := by
  intro c hc
  unfold natToDecStr at hc
  split_ifs at hc with h
  · simp only [List.mem_singleton] at hc
    subst hc
    decide
  · simp only [List.mem_reverse, List.mem_map] at hc
    obtain ⟨d, hd, rfl⟩ := hc
    rw [decDigits_eq] at hd
    exact decDigit_isDigit d (Nat.digits_lt_base (by norm_num) hd)

lemma natToDecStr_ne_nil (n : Nat) : natToDecStr n ≠ [] := by
  unfold natToDecStr
  split_ifs with h
  · simp
  · simp [decDigits_eq, Nat.digits_ne_nil_iff_ne_zero, h]

lemma not_mem_natToDecStr (x : Char) (hx : x.isDigit = false) (n : Nat) :
    x ∉ natToDecStr n := by
  intro hmem
  have hd := natToDecStr_all_digits n x hmem
  rw [hx] at hd
  exact Bool.noConfusion hd

lemma foldl_decDigit (l : List Nat) (h : ∀ d ∈ l, d < 10) (a : Nat) :
    ((l.map decDigit).reverse).foldl (fun acc c => acc * 10 + (c.toNat - 48)) a
      = a * 10 ^ l.length + Nat.ofDigits 10 l := by
  induction l generalizing a with
  | nil => simp [Nat.ofDigits]
  | cons d t ih =>
    have hd : d < 10 := h d (by simp)
    have ht : ∀ x ∈ t, x < 10 := fun x hx => h x (by simp [hx])
    simp only [List.map_cons, List.reverse_cons, List.foldl_append, List.foldl_cons,
      List.foldl_nil, List.length_cons]
    rw [ih ht, decDigit_toNat d hd, Nat.ofDigits_cons]
    ring

lemma parseU16_digits (c : Char) (cs : Str) (hd : ∀ x ∈ c :: cs, x.isDigit = true) :
    parseU16 (c :: cs) =
      if (c :: cs).foldl (fun a x => a * 10 + (x.toNat - 48)) 0 ≤ 65535
      then some ((c :: cs).foldl (fun a x => a * 10 + (x.toNat - 48)) 0) else none := by
  have hc : c.isDigit = true := hd c (by simp)
  have hplus : ¬ ((c :: cs).head? = some '+') := by
    simp only [List.head?_cons, Option.some.injEq]
    intro hh
    rw [hh] at hc
    exact Bool.noConfusion hc
  have hall : (c :: cs).all Char.isDigit = true := List.all_eq_true.mpr hd
  simp only [parseU16, if_neg hplus, List.isEmpty_cons, hall, if_true]
  rfl

lemma parseU16_natToDecStr (n : Nat) (h : n ≤ 65535) :
    parseU16 (natToDecStr n) = some n := by
  by_cases h0 : n = 0
  · subst h0
    decide
  · obtain ⟨c, cs, e⟩ : ∃ c cs, natToDecStr n = c :: cs := by
      cases e : natToDecStr n with
      | nil => exact absurd e (natToDecStr_ne_nil n)
      | cons c cs => exact ⟨c, cs, rfl⟩
    have hd : ∀ x ∈ c :: cs, x.isDigit = true := by
      rw [← e]
      exact natToDecStr_all_digits n
    have hfold : (natToDecStr n).foldl (fun a x => a * 10 + (x.toNat - 48)) 0 = n := by
      unfold natToDecStr
      rw [if_neg h0, decDigits_eq,
        foldl_decDigit _ (fun d hmem => Nat.digits_lt_base (by norm_num) hmem) 0]
      simp [Nat.ofDigits_digits]
    rw [e, parseU16_digits c cs hd, ← e, hfold, if_pos h]

/-! ### Properties of trimChars -/

lemma dropWhile_eq_self_of_forall (p : Char → Bool) (s : Str)
    (h : ∀ c ∈ s, p c = false) : s.dropWhile p = s := by
  cases s with
  | nil => rfl
  | cons c cs =>
    rw [List.dropWhile_cons, h c (by simp)]
    simp

lemma trimChars_eq_self (s : Str) (h : ∀ c ∈ s, c.isWhitespace = false) :
    trimChars s = s := by
  unfold trimChars
  rw [dropWhile_eq_self_of_forall _ _ h,
    dropWhile_eq_self_of_forall _ _ (fun c hc => h c (List.mem_reverse.mp hc)),
    List.reverse_reverse]

lemma isDigit_not_ws (c : Char) (h : c.isDigit = true) : c.isWhitespace = false := by
  cases hw : c.isWhitespace
  · rfl
  · exfalso
    simp only [Char.isWhitespace, Bool.or_eq_true, decide_eq_true_eq] at hw
    have hcases : c = ' ' ∨ c = '\t' ∨ c = '\x0d' ∨ c = '\n' := by tauto
    rcases hcases with rfl | rfl | rfl | rfl <;> exact absurd h (by decide)

lemma trimChars_natToDecStr (n : Nat) : trimChars (natToDecStr n) = natToDecStr n :=
  trimChars_eq_self _ (fun c hc => isDigit_not_ws c (natToDecStr_all_digits n c hc))

/-! ### Properties of parseSegment and parseSegments -/

lemma parseSegment_ok_mem_dash (seg : Str) (p : Nat × Nat)
    (h : parseSegment seg = Except.ok p) : '-' ∈ seg := by
  by_contra hmem
  unfold parseSegment at h
  rw [splitOnChar_not_mem _ _ hmem] at h
  simp at h

lemma parseSegment_eq_two (seg a b : Str) (e : splitOnChar '-' seg = [a, b]) :
    parseSegment seg =
      match parseU16 (trimChars a) with
      | none => Except.error (msgInvalidRangeStart a)
      | some s =>
        match parseU16 (trimChars b) with
        | none => Except.error (msgInvalidRangeEnd b)
        | some e2 =>
          if s > e2 then Except.error (msgInvalidRangeOrder seg)
          else Except.ok (s, e2) := by
  unfold parseSegment
  rw [e]

lemma parseSegment_format (seg : Str) (h : (splitOnChar '-' seg).length ≠ 2) :
    parseSegment seg = Except.error (msgInvalidRangeFormat seg) := by
  unfold parseSegment
  split
  · rename_i heq
    rw [heq] at h
    simp at h
  · rfl

lemma exists_two_of_length (l : List Str) (h : l.length = 2) :
    ∃ a b, l = [a, b] := by
  cases l with
  | nil => simp at h
  | cons a t =>
    cases t with
    | nil => simp at h
    | cons b u =>
      cases u with
      | nil => exact ⟨a, b, rfl⟩
      | cons x v => simp at h

lemma parseSegment_start_err (seg a b : Str) (e : splitOnChar '-' seg = [a, b])
    (ha : parseU16 (trimChars a) = none) :
    parseSegment seg = Except.error (msgInvalidRangeStart a) := by
  rw [parseSegment_eq_two seg a b e, ha]

lemma parseSegment_end_err (seg a b : Str) (sv : Nat)
    (e : splitOnChar '-' seg = [a, b])
    (ha : parseU16 (trimChars a) = some sv)
    (hb : parseU16 (trimChars b) = none) :
    parseSegment seg = Except.error (msgInvalidRangeEnd b) := by
  rw [parseSegment_eq_two seg a b e, ha, hb]

lemma parseSegment_order_err (seg a b : Str) (sv ev : Nat)
    (e : splitOnChar '-' seg = [a, b])
    (ha : parseU16 (trimChars a) = some sv)
    (hb : parseU16 (trimChars b) = some ev)
    (hord : sv > ev) :
    parseSegment seg = Except.error (msgInvalidRangeOrder seg) := by
  rw [parseSegment_eq_two seg a b e, ha, hb]
  simp only [if_pos hord]

lemma parseSegment_two_ok (seg a b : Str) (sv ev : Nat)
    (e : splitOnChar '-' seg = [a, b])
    (ha : parseU16 (trimChars a) = some sv)
    (hb : parseU16 (trimChars b) = some ev)
    (hord : ¬ sv > ev) :
    parseSegment seg = Except.ok (sv, ev) := by
  rw [parseSegment_eq_two seg a b e, ha, hb]
  simp only [if_neg hord]

lemma parseSegment_ok_bounds (seg : Str) (p : Nat × Nat)
    (h : parseSegment seg = Except.ok p) :
    p.1 ≤ p.2 ∧ p.1 ≤ 65535 ∧ p.2 ≤ 65535 := by
  by_cases hlen : (splitOnChar '-' seg).length = 2
  · obtain ⟨a, b, e⟩ := exists_two_of_length _ hlen
    cases ea : parseU16 (trimChars a) with
    | none => rw [parseSegment_start_err seg a b e ea] at h; simp at h
    | some sv =>
      cases eb : parseU16 (trimChars b) with
      | none => rw [parseSegment_end_err seg a b sv e ea eb] at h; simp at h
      | some ev =>
        by_cases hord : sv > ev
        · rw [parseSegment_order_err seg a b sv ev e ea eb hord] at h
          simp at h
        · rw [parseSegment_two_ok seg a b sv ev e ea eb hord] at h
          simp only [Except.ok.injEq] at h
          subst h
          exact ⟨by omega, parseU16_le _ _ ea, parseU16_le _ _ eb⟩
  · rw [parseSegment_format seg hlen] at h
    simp at h

lemma parseSegments_forall₂ (segs : List Str) (ps : List (Nat × Nat))
    (h : List.Forall₂ (fun s p => parseSegment s = Except.ok p) segs ps) :
    parseSegments segs = Except.ok ps := by
  induction h with
  | nil => rfl
  | cons hsp _ ih => simp only [parseSegments, hsp, ih]

lemma parseSegments_mem_bounds (segs : List Str) (ps : List (Nat × Nat))
    (h : parseSegments segs = Except.ok ps) :
    ∀ p ∈ ps, p.1 ≤ p.2 ∧ p.1 ≤ 65535 ∧ p.2 ≤ 65535 := by
  induction segs generalizing ps with
  | nil =>
    unfold parseSegments at h
    simp only [Except.ok.injEq] at h
    subst h
    simp
  | cons seg rest ih =>
    unfold parseSegments at h
    cases e1 : parseSegment seg with
    | error e => rw [e1] at h; simp at h
    | ok p =>
      rw [e1] at h
      cases e2 : parseSegments rest with
      | error e => rw [e2] at h; simp at h
      | ok ps' =>
        rw [e2] at h
        simp only [Except.ok.injEq] at h
        subst h
        intro q hq
        rcases List.mem_cons.mp hq with rfl | hq'
        · exact parseSegment_ok_bounds seg q e1
        · exact ih ps' e2 q hq'

lemma parseSegments_ne_nil (segs : List Str) (ps : List (Nat × Nat))
    (hne : segs ≠ []) (h : parseSegments segs = Except.ok ps) : ps ≠ [] := by
  cases segs with
  | nil => exact absurd rfl hne
  | cons seg rest =>
    unfold parseSegments at h
    cases e1 : parseSegment seg <;> rw [e1] at h
    · simp at h
    · cases e2 : parseSegments rest <;> rw [e2] at h
      · simp at h
      · simp only [Except.ok.injEq] at h
        subst h
        simp

lemma parseSegments_append_error (pre : List Str) (ps : List (Nat × Nat))
    (seg : Str) (rest : List Str) (m : Str)
    (hpre : List.Forall₂ (fun s p => parseSegment s = Except.ok p) pre ps)
    (hseg : parseSegment seg = Except.error m) :
    parseSegments (pre ++ seg :: rest) = Except.error m := by
  induction hpre with
  | nil => simp only [List.nil_append, parseSegments, hseg]
  | cons hsp _ ih => simp only [List.cons_append, parseSegments, hsp, List.append_eq, ih]

/-! ### Branch lemmas for parse_port_range -/

lemma parse_port_range_single (s : Str) (h1 : '-' ∉ s) (h2 : ',' ∉ s) :
    parse_port_range s =
      match parseU16 s with
      | some p => Except.ok (PortRange.Single p)
      | none => Except.error (msgInvalidPort s) := by
  unfold parse_port_range
  rw [if_pos]
  simp [containsChar, h1, h2]

lemma parse_port_range_ranges (s : Str) (h : ('-' ∈ s) ∨ (',' ∈ s)) :
    parse_port_range s =
      match parseSegments (splitOnChar ',' s) with
      | Except.ok prs => Except.ok (PortRange.Range prs)
      | Except.error e => Except.error e := by
  unfold parse_port_range
  rw [if_neg]
  rcases h with h | h <;> simp [containsChar, h]

lemma parse_join_ok (segs : List Str) (ps : List (Nat × Nat))
    (hne : segs ≠ []) (hc : ∀ x ∈ segs, ',' ∉ x)
    (h : List.Forall₂ (fun s p => parseSegment s = Except.ok p) segs ps) :
    parse_port_range (joinSep ',' segs) = Except.ok (PortRange.Range ps) := by
  have hbranch : ('-' ∈ joinSep ',' segs) ∨ (',' ∈ joinSep ',' segs) := by
    cases segs with
    | nil => exact absurd rfl hne
    | cons a t =>
      cases t with
      | nil =>
        left
        cases h with
        | cons hsp _ => exact parseSegment_ok_mem_dash a _ hsp
      | cons b u =>
        right
        exact mem_joinSep_left ',' a b u
  rw [parse_port_range_ranges _ hbranch, splitOnChar_joinSep ',' segs hne hc,
    parseSegments_forall₂ segs ps h]

lemma parse_ok_valid (s : Str) (pr : PortRange)
    (h : parse_port_range s = Except.ok pr) : pr.Valid := by
  unfold parse_port_range at h
  split at h
  · cases e : parseU16 s with
    | none => rw [e] at h; simp at h
    | some p =>
      rw [e] at h
      simp only [Except.ok.injEq] at h
      subst h
      exact parseU16_le s p e
  · cases e : parseSegments (splitOnChar ',' s) with
    | error m => rw [e] at h; simp at h
    | ok ps =>
      rw [e] at h
      simp only [Except.ok.injEq] at h
      subst h
      exact ⟨parseSegments_ne_nil _ _ (splitOnChar_ne_nil ',' s) e,
        parseSegments_mem_bounds _ _ e⟩

/-! ### Canonical representation round trip -/

lemma parseSegment_canonical (a b : Nat) (hab : a ≤ b) (hb : b ≤ 65535) :
    parseSegment (natToDecStr a ++ '-' :: natToDecStr b) = Except.ok (a, b) := by
  have ha : a ≤ 65535 := le_trans hab hb
  have e : splitOnChar '-' (natToDecStr a ++ '-' :: natToDecStr b)
      = [natToDecStr a, natToDecStr b] := by
    rw [splitOnChar_sep '-' _ _ (not_mem_natToDecStr '-' (by decide) a),
      splitOnChar_not_mem '-' _ (not_mem_natToDecStr '-' (by decide) b)]
  exact parseSegment_two_ok _ _ _ a b e
    (by rw [trimChars_natToDecStr, parseU16_natToDecStr a ha])
    (by rw [trimChars_natToDecStr, parseU16_natToDecStr b hb])
    (by omega)

lemma not_mem_canonical_seg (a b : Nat) :
    ',' ∉ natToDecStr a ++ '-' :: natToDecStr b := by
  intro hmem
  rcases List.mem_append.mp hmem with hm | hm
  · exact not_mem_natToDecStr ',' (by decide) a hm
  · rcases List.mem_cons.mp hm with hm' | hm'
    · exact absurd hm' (by decide)
    · exact not_mem_natToDecStr ',' (by decide) b hm'

lemma canonical_roundtrip (pr : PortRange) (hv : pr.Valid) :
    parse_port_range (canonicalStr pr) = Except.ok pr := by
  cases pr with
  | Single p =>
    have h1 : '-' ∉ natToDecStr p := not_mem_natToDecStr '-' (by decide) p
    have h2 : ',' ∉ natToDecStr p := not_mem_natToDecStr ',' (by decide) p
    rw [canonicalStr, parse_port_range_single _ h1 h2,
      parseU16_natToDecStr p hv]
  | Range l =>
    obtain ⟨hne, hb⟩ := hv
    rw [canonicalStr]
    apply parse_join_ok
    · intro hemp
      rw [List.map_eq_nil_iff] at hemp
      exact hne hemp
    · intro x hx
      obtain ⟨q, hq, rfl⟩ := List.mem_map.mp hx
      exact not_mem_canonical_seg q.1 q.2
    · rw [List.forall₂_map_left_iff, List.forall₂_same]
      intro q hq
      exact parseSegment_canonical q.1 q.2 (hb q hq).1 (hb q hq).2.2

/-! ### Claim theorems -/

/-- Claim C1, counterexample: with the all-ports flag set and the supplied
port string equal to 80, the assembler yields RangeList([(1, 65535)]),
while parsing the shorthand for 0 through 65535 yields
RangeList([(0, 65535)]); the two differ, so the resulting PortSelection
does not equal the result of parsing a 0-to-65535 shorthand as the claim
states. -/
theorem c1_all_ports_cex :
    argsNewPorts true ("80").data = ArgsOutcome.ok (PortRange.Range [(1, 65535)])
    ∧ parse_port_range ("0-65535").data = Except.ok (PortRange.Range [(0, 65535)])
    ∧ argsNewPorts true ("80").data ≠ ArgsOutcome.ok (PortRange.Range [(0, 65535)]) :=
  ⟨by decide, by decide, by decide⟩

/-- Claim C1, amended: when the all-ports flag is set the configuration
assembler replaces the effective port string with the shorthand 1-65535
covering 1 through 65535, so the resulting PortSelection always equals
the result of parsing that shorthand, RangeList([(1, 65535)]),
irrespective of the supplied port string content. -/
theorem c1_all_ports (ports : Str) :
    argsNewPorts true ports = ArgsOutcome.ok (PortRange.Range [(1, 65535)])
    ∧ parse_port_range (("1-65535").data)
      = Except.ok (PortRange.Range [(1, 65535)]) :=
  ⟨rfl, rfl⟩

/-- Claim C2, counterexample: on the input abc the grammar parser fails
with the message Invalid port: abc, but the configuration assembler does
not return that failure through an error channel: it aborts the process
(modelled by the panic outcome of Result::expect) with the fixed message
Failed to parse ports range., so the claim that it returns the failure
rather than aborting is false at this input. -/
theorem c2_passthrough_cex :
    parse_port_range ("abc").data = Except.error (msgInvalidPort ("abc").data)
    ∧ argsNewPorts false ("abc").data
      = ArgsOutcome.panic ("Failed to parse ports range.").data
          (msgInvalidPort ("abc").data) :=
  ⟨by decide, by decide⟩

/-- Claim C2, amended: for every input on which the grammar parser
fails, the configuration assembler aborts the process via
Result::expect, panicking with the fixed message Failed to parse ports
range. together with the parser error in the panic payload, instead of
returning the failure to its caller. -/
theorem c2_passthrough (all_ports : Bool) (ports : Str) (e : Str)
    (h : parse_port_range (effectiveTargetPorts all_ports ports) = Except.error e) :
    argsNewPorts all_ports ports
      = ArgsOutcome.panic ("Failed to parse ports range.").data e := by
  unfold argsNewPorts
  rw [h]

/-- Witness for the amended claim C2 at the concrete input abc. -/
theorem c2_passthrough_witness :
    argsNewPorts false ("abc").data
      = ArgsOutcome.panic ("Failed to parse ports range.").data
          (msgInvalidPort ("abc").data) :=
  c2_passthrough false ("abc").data (msgInvalidPort ("abc").data) (by decide)

/-- Claim C3: for every unsigned 16-bit integer p, the decimal string of
p contains neither a dash nor a comma, and parsing it succeeds yielding
Single(p). -/
theorem c3_single_roundtrip (p : Nat) (hp : p ≤ 65535) :
    ('-' ∉ natToDecStr p ∧ ',' ∉ natToDecStr p)
    ∧ parse_port_range (natToDecStr p) = Except.ok (PortRange.Single p) := by
  have h1 : '-' ∉ natToDecStr p := not_mem_natToDecStr '-' (by decide) p
  have h2 : ',' ∉ natToDecStr p := not_mem_natToDecStr ',' (by decide) p
  refine ⟨⟨h1, h2⟩, ?_⟩
  rw [parse_port_range_single _ h1 h2, parseU16_natToDecStr p hp]

/-- Witness for claim C3 at the concrete port 8080. -/
theorem c3_single_roundtrip_witness :
    (8080 ≤ 65535)
    ∧ (('-' ∉ natToDecStr 8080 ∧ ',' ∉ natToDecStr 8080)
      ∧ parse_port_range (natToDecStr 8080) = Except.ok (PortRange.Single 8080)) :=
  ⟨by decide, c3_single_roundtrip 8080 (by decide)⟩

/-- Claim C4: for every comma-separated sequence of valid range
segments, parsing the joined input succeeds and yields a RangeList
holding exactly the pair of each segment, in input order, duplicates and
overlaps preserved verbatim. -/
theorem c4_rangelist_order (segs : List Str) (ps : List (Nat × Nat))
    (hne : segs ≠ []) (hc : ∀ x ∈ segs, ',' ∉ x)
    (h : List.Forall₂ (fun s p => parseSegment s = Except.ok p) segs ps) :
    parse_port_range (joinSep ',' segs) = Except.ok (PortRange.Range ps) :=
  parse_join_ok segs ps hne hc h

/-- Witness for claim C4 on a three-segment input with a duplicated
range, which is preserved verbatim and in order. -/
theorem c4_rangelist_order_witness :
    parse_port_range (joinSep ',' [("8000-8080").data, ("8000-8080").data, ("1-2").data])
      = Except.ok (PortRange.Range [(8000, 8080), (8000, 8080), (1, 2)]) :=
  c4_rangelist_order _ _ (by decide) (by decide)
    (List.Forall₂.cons (by decide)
      (List.Forall₂.cons (by decide)
        (List.Forall₂.cons (by decide) List.Forall₂.nil)))

/-- Claim C5: every PortSelection the parser returns is valid by
construction: a Single carries a port in 0-65535, and a Range is a
non-empty list of pairs with start at most end and both bounds in
0-65535.  The embedding is pure, so no later operation can mutate a
constructed value. -/
theorem c5_valid_by_construction (s : Str) (pr : PortRange)
    (h : parse_port_range s = Except.ok pr) : pr.Valid :=
  parse_ok_valid s pr h

/-- Witness for claim C5 on a concrete parsed range. -/
theorem c5_valid_by_construction_witness :
    (PortRange.Range [(8000, 8080)]).Valid :=
  c5_valid_by_construction ("8000-8080").data _ (by decide)

/-- Claim C6: every string without a dash or comma that does not parse
as an unsigned 16-bit integer fails with the InvalidPort message
carrying the offending text verbatim; out-of-range numerals take the
same error as unparseable text. -/
theorem c6_invalid_single (s : Str) (h1 : '-' ∉ s) (h2 : ',' ∉ s)
    (h3 : parseU16 s = none) :
    parse_port_range s = Except.error (msgInvalidPort s) := by
  rw [parse_port_range_single s h1 h2, h3]

/-- Witness for claim C6 at the empty string and at the out-of-range
numeral 65536. -/
theorem c6_invalid_single_witness :
    parse_port_range [] = Except.error (msgInvalidPort [])
    ∧ parse_port_range ("65536").data
      = Except.error (msgInvalidPort ("65536").data) :=
  ⟨c6_invalid_single [] (by decide) (by decide) (by decide),
    c6_invalid_single ("65536").data (by decide) (by decide) (by decide)⟩

/-- Claim C7: an input that is one valid range segment (and so contains
a dash and no comma) parses to a RangeList with exactly one element,
never a Single. -/
theorem c7_single_segment (s : Str) (p : Nat × Nat)
    (hc : ',' ∉ s) (hok : parseSegment s = Except.ok p) :
    parse_port_range s = Except.ok (PortRange.Range [p]) := by
  have hdash : '-' ∈ s := parseSegment_ok_mem_dash s p hok
  rw [parse_port_range_ranges s (Or.inl hdash), splitOnChar_not_mem ',' s hc]
  simp only [parseSegments, hok]

/-- Witness for claim C7 at the concrete input 8000-8080. -/
theorem c7_single_segment_witness :
    parse_port_range ("8000-8080").data
      = Except.ok (PortRange.Range [(8000, 8080)]) :=
  c7_single_segment ("8000-8080").data (8000, 8080) (by decide) (by decide)

/-- Claim C8, counterexample: the input a-b,1-2-3 contains a comma and a
segment (1-2-3) that does not split on the dash into exactly two parts,
yet the whole parse fails with Invalid start port: a (the first segment
fails its numeric parse first), not with the InvalidRangeFormat message
citing 1-2-3; so the claim, which requires InvalidRangeFormat for every
such input, is false at this input. -/
theorem c8_format_cex :
    (',' ∈ ("a-b,1-2-3").data)
    ∧ ("1-2-3").data ∈ splitOnChar ',' ("a-b,1-2-3").data
    ∧ (splitOnChar '-' ("1-2-3").data).length ≠ 2
    ∧ parse_port_range ("a-b,1-2-3").data
      = Except.error (msgInvalidRangeStart ("a").data)
    ∧ parse_port_range ("a-b,1-2-3").data
      ≠ Except.error (msgInvalidRangeFormat ("1-2-3").data) :=
  ⟨by decide, by decide, by decide, by decide, by decide⟩

/-- Claim C8, amended: for every input containing a dash or comma in
which some comma-delimited segment does not split on the dash into
exactly two parts and every earlier segment is a valid range segment,
the whole parse fails with InvalidRangeFormat citing that first
offending segment verbatim. -/
theorem c8_format_first_invalid (pre : List Str) (seg : Str) (rest : List Str)
    (ps : List (Nat × Nat))
    (hpre : List.Forall₂ (fun x p => parseSegment x = Except.ok p) pre ps)
    (hseg : (splitOnChar '-' seg).length ≠ 2)
    (hc : ∀ x ∈ pre ++ seg :: rest, ',' ∉ x)
    (hin : ('-' ∈ joinSep ',' (pre ++ seg :: rest))
      ∨ (',' ∈ joinSep ',' (pre ++ seg :: rest))) :
    parse_port_range (joinSep ',' (pre ++ seg :: rest))
      = Except.error (msgInvalidRangeFormat seg) := by
  rw [parse_port_range_ranges _ hin,
    splitOnChar_joinSep ',' _ (by simp) hc,
    parseSegments_append_error pre ps seg rest _ hpre (parseSegment_format seg hseg)]

/-- Witness for the amended claim C8 on the input 1-2,3-4-5, whose first
segment is valid and whose second splits into three parts. -/
theorem c8_format_first_invalid_witness :
    parse_port_range (joinSep ',' [("1-2").data, ("3-4-5").data])
      = Except.error (msgInvalidRangeFormat ("3-4-5").data) :=
  c8_format_first_invalid [("1-2").data] ("3-4-5").data [] [(1, 2)]
    (List.Forall₂.cons (by decide) List.Forall₂.nil)
    (by decide) (by decide) (Or.inr (by decide))

/-- Claim C9: in a range segment that splits on the dash into exactly
two parts, each part is trimmed of surrounding whitespace before its
numeric parse; if the trimmed first part fails to parse the whole parse
fails with InvalidRangeStart citing that part, and if the first part
parses and the trimmed second part fails, it fails with InvalidRangeEnd
citing that part. -/
theorem c9_part_errors (seg a b : Str) (hc : ',' ∉ seg)
    (hsplit : splitOnChar '-' seg = [a, b]) :
    (parseU16 (trimChars a) = none →
      parse_port_range seg = Except.error (msgInvalidRangeStart a))
    ∧ ∀ va, parseU16 (trimChars a) = some va →
        parseU16 (trimChars b) = none →
        parse_port_range seg = Except.error (msgInvalidRangeEnd b) := by
  have hdash : '-' ∈ seg := by
    apply mem_of_splitOnChar_length '-' seg
    rw [hsplit]
    simp
  have hparse : ∀ m : Str, parseSegment seg = Except.error m →
      parse_port_range seg = Except.error m := by
    intro m hm
    rw [parse_port_range_ranges seg (Or.inl hdash), splitOnChar_not_mem ',' seg hc]
    simp only [parseSegments, hm]
  constructor
  · intro ha
    exact hparse _ (parseSegment_start_err seg a b hsplit ha)
  · intro va ha hb
    exact hparse _ (parseSegment_end_err seg a b va hsplit ha hb)

/-- Witness for claim C9 at the concrete inputs a-1000 and 1000-b. -/
theorem c9_part_errors_witness :
    parse_port_range ("a-1000").data
      = Except.error (msgInvalidRangeStart ("a").data)
    ∧ parse_port_range ("1000-b").data
      = Except.error (msgInvalidRangeEnd ("b").data) :=
  ⟨(c9_part_errors ("a-1000").data ("a").data ("1000").data
      (by decide) (by decide)).1 (by decide),
    (c9_part_errors ("1000-b").data ("1000").data ("b").data
      (by decide) (by decide)).2 1000 (by decide) (by decide)⟩

/-- Claim C10: for every PortSelection the parser returns, re-parsing
its canonical string representation (decimal digits for Single,
comma-joined start-end segments for Range) yields a value equal to the
original. -/
theorem c10_idempotent (s : Str) (pr : PortRange)
    (h : parse_port_range s = Except.ok pr) :
    parse_port_range (canonicalStr pr) = Except.ok pr :=
  canonical_roundtrip pr (parse_ok_valid s pr h)

/-- Witness for claim C10 at the parse of 8000-8080,9000-9090. -/
theorem c10_idempotent_witness :
    parse_port_range (canonicalStr (PortRange.Range [(8000, 8080), (9000, 9090)]))
      = Except.ok (PortRange.Range [(8000, 8080), (9000, 9090)]) :=
  c10_idempotent ("8000-8080,9000-9090").data _ (by decide)
